import Mathlib

/-!
Shallow embedding of the TensorRT dynamo graph-to-engine compiler core
(converter utilities, the interpreter's placeholder/output handlers, the
1-D convolution lowering, the compile driver's fallback policy, and the
input-aliasing repair passes), together with theorems settling the spec's
claims about it.
-/

/-- TensorRT element data types (`trt.DataType`); `otherDt` stands for the
remaining members of the enum, which the embedded code never inspects. -/
inductive TRTDataType where
  | float32
  | float16
  | int32
  | int8
  | boolT
  | otherDt (n : Nat)
deriving DecidableEq, Repr

/-- Rendering of a dtype, used only to build layer names. -/
def dtypeName : TRTDataType → String
  | TRTDataType.float32 => "float32"
  | TRTDataType.float16 => "float16"
  | TRTDataType.int32 => "int32"
  | TRTDataType.int8 => "int8"
  | TRTDataType.boolT => "bool"
  | TRTDataType.otherDt n => "dtype" ++ toString n

/-- A dtype of the floating family. -/
def TRTDataType.isFloating : TRTDataType → Bool
  | TRTDataType.float32 => true
  | TRTDataType.float16 => true
  | _ => false

/-- A TensorRT ITensor handle: name, dtype and shape (a TRT dim may be -1). -/
structure TRTTensor where
  name : String
  dtype : TRTDataType
  shape : List Int
deriving DecidableEq, Repr

/-- The kinds of layers the embedded fragment adds to a network. -/
inductive LayerKind where
  | identityLayer
  | otherLayer (tag : String)
deriving DecidableEq, Repr

/-- One layer of the network under construction. -/
structure TRTLayer where
  layerName : String
  kind : LayerKind
  inputT : TRTTensor
  outputT : TRTTensor
deriving DecidableEq, Repr

/-- The network under construction: the ordered list of layers added so far. -/
structure TRTNetwork where
  layers : List TRTLayer
deriving DecidableEq, Repr

/-- `converter_utils.cast_trt_tensor`: convert `input_val` to `dtype`.  If the
dtype already matches, the input handle is returned and the network is left
unchanged; otherwise one identity layer whose output type is `dtype` is added
and its output is returned.  `castLayer` is the identity layer that
`cast_trt_tensor` constructs (name, input and the retyped output tensor). -/
def castLayer (input_val : TRTTensor) (trt_dtype : TRTDataType) (name : String) : TRTLayer :=
  let layerName := "Cast ITensor " ++ input_val.name ++ " from "
    ++ dtypeName input_val.dtype ++ " to " ++ dtypeName trt_dtype ++ " - " ++ name
  ⟨layerName, LayerKind.identityLayer, input_val, ⟨layerName ++ "_output", trt_dtype, input_val.shape⟩⟩

def cast_trt_tensor (network : TRTNetwork) (input_val : TRTTensor)
    (dtype : TRTDataType) (name : String) : TRTNetwork × TRTTensor :=
  let trt_dtype := dtype
  if input_val.dtype ≠ trt_dtype then
    let identity_layer := castLayer input_val trt_dtype name
    (⟨network.layers ++ [identity_layer]⟩, identity_layer.outputT)
  else
    (network, input_val)

/-- `converter_utils.cast_int_int_div_trt_tensor`: before a division, when
BOTH operands are of int8/int32 dtype, cast both to float32. -/
def cast_int_int_div_trt_tensor (network : TRTNetwork) (lhs_val rhs_val : TRTTensor)
    (name : String) : TRTNetwork × List TRTTensor :=
  if (lhs_val.dtype == TRTDataType.int8 || lhs_val.dtype == TRTDataType.int32)
      && (rhs_val.dtype == TRTDataType.int8 || rhs_val.dtype == TRTDataType.int32) then
    let r1 := cast_trt_tensor network lhs_val TRTDataType.float32 name
    let r2 := cast_trt_tensor r1.1 rhs_val TRTDataType.float32 name
    (r2.1, [r1.2, r2.2])
  else
    (network, [lhs_val, rhs_val])

/-- A positional argument of an aten node, as the div converter sees it:
either an ITensor of the network or a non-tensor (scalar) value. -/
inductive Argument where
  | tensor (t : TRTTensor)
  | scalar (v : Int)
deriving DecidableEq, Repr

/-- The dtype of a tensor argument. -/
def Argument.dtypeOf : Argument → Option TRTDataType
  | Argument.tensor t => some t.dtype
  | Argument.scalar _ => none

/-- The operand-casting prelude of `aten_ops_div`: if both args are ITensors,
`cast_int_int_div_trt_tensor` runs; if exactly one is an ITensor of int8/int32
dtype, that one alone is cast to float32; otherwise the operands pass through.
The resulting operands are what the division emission receives. -/
def aten_ops_div_cast (network : TRTNetwork) (arg0 arg1 : Argument)
    (name : String) : TRTNetwork × Argument × Argument :=
  match arg0, arg1 with
  | Argument.tensor t0, Argument.tensor t1 =>
    let r := cast_int_int_div_trt_tensor network t0 t1 name
    match r.2 with
    | [l0, l1] => (r.1, Argument.tensor l0, Argument.tensor l1)
    | _ => (r.1, arg0, arg1)
  | Argument.tensor t0, _ =>
    if t0.dtype == TRTDataType.int8 || t0.dtype == TRTDataType.int32 then
      let c := cast_trt_tensor network t0 TRTDataType.float32 name
      (c.1, Argument.tensor c.2, arg1)
    else
      (network, arg0, arg1)
  | _, Argument.tensor t1 =>
    if t1.dtype == TRTDataType.int8 || t1.dtype == TRTDataType.int32 then
      let c := cast_trt_tensor network t1 TRTDataType.float32 name
      (c.1, arg0, Argument.tensor c.2)
    else
      (network, arg0, arg1)
  | _, _ => (network, arg0, arg1)

/-- `converter_utils.broadcastable`: first the equal-rank, equal-shape early
acceptance, then left-padding of the shorter shape with ones and the per-axis
check (equal, or one of the pair is 1). -/
def broadcastable (a b : TRTTensor) : Bool :=
  let a_shape := a.shape
  let b_shape := b.shape
  let diff : Int := (a_shape.length : Int) - (b_shape.length : Int)
  if diff == 0 && (List.zip a_shape b_shape).all (fun p => p.1 == p.2) then
    true
  else
    let b_shape2 := if diff > 0 then List.replicate diff.natAbs 1 ++ b_shape else b_shape
    let a_shape2 := if diff > 0 then a_shape else List.replicate diff.natAbs 1 ++ a_shape
    (List.zip a_shape2 b_shape2).all (fun p => p.1 == p.2 || p.1 == 1 || p.2 == 1)

/-- The spec's broadcastability rule, stated on shapes as the spec words it:
right-align the shapes, left-pad the shorter with size-1 axes, and require
every aligned axis pair to be equal or to have a member equal to 1. -/
def broadcastableSpec (a b : List Int) : Bool :=
  let n := max a.length b.length
  let aPad := List.replicate (n - a.length) 1 ++ a
  let bPad := List.replicate (n - b.length) 1 ++ b
  (List.zip aPad bPad).all (fun p => p.1 == p.2 || p.1 == 1 || p.2 == 1)

theorem allEq_imp_allDisj (l : List (Int × Int))
    (h : (l.all fun p => p.1 == p.2) = true) :
    (l.all fun p => p.1 == p.2 || p.1 == 1 || p.2 == 1) = true := by
  simp only [List.all_eq_true] at h ⊢
  intro p hp
  simp [h p hp]

/-- C4: `broadcastable` agrees with the spec's rule (right-align, left-pad the
shorter shape with ones, accept iff every aligned axis pair is equal or has a
member equal to 1) on all shape pairs, and the three quoted examples hold. -/
theorem C4_broadcastable_matches_spec :
    (∀ a b : TRTTensor, broadcastable a b = broadcastableSpec a.shape b.shape)
    ∧ broadcastable ⟨"a", TRTDataType.float32, [2, 3]⟩ ⟨"b", TRTDataType.float32, [3]⟩ = true
    ∧ broadcastable ⟨"a", TRTDataType.float32, [2, 3]⟩ ⟨"b", TRTDataType.float32, [2, 4]⟩ = false
    ∧ broadcastable ⟨"a", TRTDataType.float32, [1, 5, 1]⟩ ⟨"b", TRTDataType.float32, [3, 5, 7]⟩
        = true := by
  refine ⟨?_, by decide, by decide, by decide⟩
  intro a b
  obtain ⟨na, da, sa⟩ := a
  obtain ⟨nb, db, sb⟩ := b
  simp only [broadcastable, broadcastableSpec]
  rcases lt_trichotomy sa.length sb.length with hlt | heq | hgt
  · have h1 : (((sa.length : Int) - (sb.length : Int)) == 0) = false := by
      simp only [beq_eq_false_iff_ne, ne_eq]
      omega
    have h2 : ¬ (((sa.length : Int) - (sb.length : Int)) > 0) := by omega
    have h3 : ((sa.length : Int) - (sb.length : Int)).natAbs = sb.length - sa.length := by
      omega
    have h4 : max sa.length sb.length = sb.length := by omega
    have h5 : sb.length - sb.length = 0 := by omega
    simp [h1, h2, h3, h4, h5]
  · by_cases hall : ((List.zip sa sb).all fun p => p.1 == p.2) = true
    · have h1 : (((sa.length : Int) - (sb.length : Int)) == 0) = true := by
        simp only [beq_iff_eq]
        omega
      have h4 : max sa.length sb.length = sb.length := by omega
      have h5 : sb.length - sb.length = 0 := by omega
      have h6 : sa.length - sb.length = 0 := by omega
      simp [h1, hall, h4, h5, h6, heq, allEq_imp_allDisj _ hall]
    · have h2 : ¬ (((sa.length : Int) - (sb.length : Int)) > 0) := by omega
      have h3 : ((sa.length : Int) - (sb.length : Int)).natAbs = 0 := by omega
      have h4 : max sa.length sb.length = sb.length := by omega
      have h5 : sb.length - sb.length = 0 := by omega
      have h6 : sa.length - sb.length = 0 := by omega
      have h7 : sb.length - sa.length = 0 := by omega
      simp [hall, h2, h3, h4, h5, h6, h7]
  · have h1 : (((sa.length : Int) - (sb.length : Int)) == 0) = false := by
      simp only [beq_eq_false_iff_ne, ne_eq]
      omega
    have h2 : (((sa.length : Int) - (sb.length : Int)) > 0) := by omega
    have h3 : ((sa.length : Int) - (sb.length : Int)).natAbs = sa.length - sb.length := by
      omega
    have h4 : max sa.length sb.length = sa.length := by omega
    have h5 : sa.length - sa.length = 0 := by omega
    simp [h1, h2, h3, h4, h5]

/-- C5: casting to the dtype the tensor already has returns the identical
handle and leaves the network unchanged; casting to a different dtype appends
exactly one identity layer and returns its output; casting twice to the same
dtype equals casting once. -/
theorem C5_cast_noop_and_idempotent (network : TRTNetwork) (t : TRTTensor)
    (d : TRTDataType) (nm : String) :
    (t.dtype = d → cast_trt_tensor network t d nm = (network, t))
    ∧ (t.dtype ≠ d →
        ∃ l : TRTLayer, l.kind = LayerKind.identityLayer ∧ l.outputT.dtype = d ∧
          (cast_trt_tensor network t d nm).1.layers = network.layers ++ [l] ∧
          (cast_trt_tensor network t d nm).2 = l.outputT)
    ∧ cast_trt_tensor (cast_trt_tensor network t d nm).1 (cast_trt_tensor network t d nm).2 d nm
        = ((cast_trt_tensor network t d nm).1, (cast_trt_tensor network t d nm).2) := by
  refine ⟨?_, ?_, ?_⟩
  · intro h
    simp [cast_trt_tensor, h]
  · intro h
    simp only [cast_trt_tensor, if_pos h]
    exact ⟨_, rfl, rfl, rfl, rfl⟩
  · by_cases h : t.dtype = d
    · simp [cast_trt_tensor, h]
    · simp [cast_trt_tensor, castLayer, h]

/-- An empty network, used as concrete input in several evaluations. -/
def net0 : TRTNetwork := ⟨[]⟩

/-- A concrete int32 division operand. -/
def tDivInt : TRTTensor := ⟨"div_lhs", TRTDataType.int32, [2, 2]⟩

/-- A concrete float32 division operand. -/
def tDivFloat : TRTTensor := ⟨"div_rhs", TRTDataType.float32, [2, 2]⟩

/-- C1 counterexample: with a two-tensor division whose left operand is int32
and whose right operand is float32, "either operand is an 8/32-bit integer"
holds, yet the div converter's casting prelude emits no cast at all: both
operands reach the division unchanged and the left one is still non-floating. -/
theorem C1_counterexample :
    (tDivInt.dtype = TRTDataType.int32 ∨ tDivFloat.dtype = TRTDataType.int32)
    ∧ aten_ops_div_cast net0 (Argument.tensor tDivInt) (Argument.tensor tDivFloat) "div"
        = (net0, Argument.tensor tDivInt, Argument.tensor tDivFloat)
    ∧ tDivInt.dtype.isFloating = false := by
  exact ⟨Or.inl rfl, rfl, rfl⟩

/-- C1 amended: for a division node whose two operands are tensors, both
operands are cast to float32 via explicit identity-cast operations exactly
when BOTH operands have an 8-bit or 32-bit integer dtype; when that fails
(in particular when only one operand is integer-typed), the two-tensor
casting prelude leaves the operands and the network unchanged. -/
theorem C1_div_both_int_casts (network : TRTNetwork) (t0 t1 : TRTTensor) (nm : String) :
    (((t0.dtype = TRTDataType.int8 ∨ t0.dtype = TRTDataType.int32)
        ∧ (t1.dtype = TRTDataType.int8 ∨ t1.dtype = TRTDataType.int32)) →
      ∃ l0 l1 : TRTLayer,
        l0.kind = LayerKind.identityLayer ∧ l1.kind = LayerKind.identityLayer ∧
        l0.outputT.dtype = TRTDataType.float32 ∧ l1.outputT.dtype = TRTDataType.float32 ∧
        (aten_ops_div_cast network (Argument.tensor t0) (Argument.tensor t1) nm).1.layers
          = network.layers ++ [l0, l1] ∧
        (aten_ops_div_cast network (Argument.tensor t0) (Argument.tensor t1) nm).2.1
          = Argument.tensor l0.outputT ∧
        (aten_ops_div_cast network (Argument.tensor t0) (Argument.tensor t1) nm).2.2
          = Argument.tensor l1.outputT)
    ∧ (¬ ((t0.dtype = TRTDataType.int8 ∨ t0.dtype = TRTDataType.int32)
          ∧ (t1.dtype = TRTDataType.int8 ∨ t1.dtype = TRTDataType.int32)) →
        aten_ops_div_cast network (Argument.tensor t0) (Argument.tensor t1) nm
          = (network, Argument.tensor t0, Argument.tensor t1)) := by
  constructor
  · rintro ⟨h0, h1⟩
    have hb : ((t0.dtype == TRTDataType.int8 || t0.dtype == TRTDataType.int32)
        && (t1.dtype == TRTDataType.int8 || t1.dtype == TRTDataType.int32)) = true := by
      rcases h0 with h0 | h0 <;> rcases h1 with h1 | h1 <;> simp [h0, h1]
    have hn0 : t0.dtype ≠ TRTDataType.float32 := by
      rcases h0 with h0 | h0 <;> simp [h0]
    have hn1 : t1.dtype ≠ TRTDataType.float32 := by
      rcases h1 with h1 | h1 <;> simp [h1]
    simp only [aten_ops_div_cast, cast_int_int_div_trt_tensor, hb, if_true,
      cast_trt_tensor, if_pos hn0, if_pos hn1]
    exact ⟨castLayer t0 TRTDataType.float32 nm, castLayer t1 TRTDataType.float32 nm,
      rfl, rfl, rfl, rfl, by simp, rfl, rfl⟩
  · intro h
    have hb : ((t0.dtype == TRTDataType.int8 || t0.dtype == TRTDataType.int32)
        && (t1.dtype == TRTDataType.int8 || t1.dtype == TRTDataType.int32)) = false := by
      rcases Decidable.em (t0.dtype = TRTDataType.int8 ∨ t0.dtype = TRTDataType.int32) with
        h0 | h0
      · rcases Decidable.em (t1.dtype = TRTDataType.int8 ∨ t1.dtype = TRTDataType.int32) with
          h1 | h1
        · exact absurd ⟨h0, h1⟩ h
        · simp only [Bool.and_eq_false_iff]
          right
          simpa using h1
      · simp only [Bool.and_eq_false_iff]
        left
        simpa using h0
    simp [aten_ops_div_cast, cast_int_int_div_trt_tensor, hb]

/-- `converter_utils.extend_attr_to_tuple` for list-valued attributes: a
length-1 list is replicated to `num_elem` entries, other lists pass through. -/
def extend_attr_to_tuple (val : List Int) (num_elem : Nat) : List Int :=
  if val.length = 1 then List.replicate num_elem (val.headD 0) else val

/-- `impl.unsqueeze.unsqueeze(..., t, -1)`: append a trailing unit axis. -/
def unsqueezeLast (t : TRTTensor) : TRTTensor :=
  ⟨t.name ++ "_unsqueeze", t.dtype, t.shape ++ [1]⟩

/-- `impl.squeeze.squeeze(..., t, -1)`: drop the trailing axis. -/
def squeezeLast (t : TRTTensor) : TRTTensor :=
  ⟨t.name ++ "_squeeze", t.dtype, t.shape.dropLast⟩

/-- A convolution weight as `convNd` receives it: an ITensor of the network
(dynamic weight) or a compile-time constant, of which only the shape matters
to the embedded dataflow. -/
inductive ConvWeight where
  | trtW (t : TRTTensor)
  | constW (shape : List Int)
deriving DecidableEq, Repr

/-- `get_trt_tensor` on a weight: an ITensor passes through; a constant is
materialized as a network tensor of the same shape. -/
def get_trt_tensor_weight (w : ConvWeight) (nm : String) : TRTTensor :=
  match w with
  | ConvWeight.trtW t => t
  | ConvWeight.constW s => ⟨nm, TRTDataType.float32, s⟩

/-- The 2-D convolution primitive invocation assembled by `convNd`: the input
tensor handed to `add_convolution_nd`, the weight (kernel constant or
`set_input(1, ...)` tensor), and the attributes set on the layer. -/
structure ConvLayerCall where
  inputT : TRTTensor
  weightW : ConvWeight
  padding_nd : List Int
  stride_nd : List Int
  dilation_nd : List Int
deriving DecidableEq, Repr

/-- `impl.conv.convNd`: the dataflow of the converter.  For `is_conv1d`, the
input is unsqueezed with a trailing unit axis; in the weight-processing step a
TRT-tensor weight is run through `get_trt_tensor` and — exactly as the source
line reads — `input` is assigned the unsqueezed WEIGHT, while a constant
weight is expanded with a trailing unit axis via `np.expand_dims`; the
padding/stride/dilation attributes are extended; the primitive's output is
squeezed back.  `primOut` stands for the external `conv_layer.get_output(0)`. -/
def convNd (primOut : ConvLayerCall → TRTTensor) (has_explicit_precision : Bool)
    (is_conv1d : Bool) (input : TRTTensor) (weight : ConvWeight)
    (stride padding dilation : List Int) (name : String) : ConvLayerCall × TRTTensor :=
  let input := if is_conv1d then unsqueezeLast input else input
  let step :=
    if has_explicit_precision || (match weight with
        | ConvWeight.trtW _ => true
        | ConvWeight.constW _ => false) then
      let w := get_trt_tensor_weight weight (name ++ "_weight")
      let input := if is_conv1d then unsqueezeLast w else input
      (input, ConvWeight.trtW w)
    else
      match weight with
      | ConvWeight.constW s =>
        (input, ConvWeight.constW (if is_conv1d then s ++ [1] else s))
      | ConvWeight.trtW t => (input, ConvWeight.trtW t)
  let padding := if is_conv1d then padding ++ [0] else padding
  let stride := if is_conv1d then extend_attr_to_tuple stride 2 else stride
  let dilation := if is_conv1d then extend_attr_to_tuple dilation 2 else dilation
  let conv_layer : ConvLayerCall := ⟨step.1, step.2, padding, stride, dilation⟩
  let result := primOut conv_layer
  let result := if is_conv1d then squeezeLast result else result
  (conv_layer, result)

/-- Concrete 1-D convolution input tensor. -/
def convInput1d : TRTTensor := ⟨"x", TRTDataType.float32, [1, 2, 8]⟩

/-- Concrete dynamic (ITensor) convolution weight. -/
def convWeight1d : TRTTensor := ⟨"w", TRTDataType.float32, [4, 2, 3]⟩

/-- A fixed stand-in for the external primitive's output tensor. -/
def convPrimOutFixed : TRTTensor := ⟨"conv_out", TRTDataType.float32, [1, 4, 6, 1]⟩

/-- C6, evaluated at the failing input (a 1-D convolution whose weight is a
dynamic ITensor): the padding/stride/dilation extension and the final squeeze
behave as claimed, but the weight handed to the 2-D primitive is NOT
unsqueezed (its shape keeps rank 3) and the primitive's input is the
unsqueezed WEIGHT rather than the unsqueezed input — the source assigns
`input = unsqueeze(weight)` where its own comment says the weight is to be
unsqueezed. -/
theorem C6_conv1d_trt_weight_eval :
    (convNd (fun _ => convPrimOutFixed) false true convInput1d (ConvWeight.trtW convWeight1d)
        [1] [0] [1] "conv").1.inputT = unsqueezeLast convWeight1d
    ∧ (convNd (fun _ => convPrimOutFixed) false true convInput1d (ConvWeight.trtW convWeight1d)
        [1] [0] [1] "conv").1.inputT ≠ unsqueezeLast convInput1d
    ∧ (convNd (fun _ => convPrimOutFixed) false true convInput1d (ConvWeight.trtW convWeight1d)
        [1] [0] [1] "conv").1.weightW = ConvWeight.trtW convWeight1d
    ∧ convWeight1d.shape = [4, 2, 3]
    ∧ (convNd (fun _ => convPrimOutFixed) false true convInput1d (ConvWeight.trtW convWeight1d)
        [1] [0] [1] "conv").1.padding_nd = [0, 0]
    ∧ (convNd (fun _ => convPrimOutFixed) false true convInput1d (ConvWeight.trtW convWeight1d)
        [1] [0] [1] "conv").1.stride_nd = [1, 1]
    ∧ (convNd (fun _ => convPrimOutFixed) false true convInput1d (ConvWeight.trtW convWeight1d)
        [1] [0] [1] "conv").1.dilation_nd = [1, 1]
    ∧ (convNd (fun _ => convPrimOutFixed) false true convInput1d (ConvWeight.trtW convWeight1d)
        [1] [0] [1] "conv").2 = squeezeLast convPrimOutFixed := by
  refine ⟨rfl, ?_, rfl, rfl, rfl, rfl, rfl, rfl⟩
  decide

/-- One entry of the interpreter's output value: a concrete network ITensor or
anything else (a raw constant, a number, ...). -/
inductive OutItem where
  | itensor (t : TRTTensor)
  | nonTensor
deriving DecidableEq, Repr

/-- The single argument of the graph's output node: a tuple, a list, or a
singleton value. -/
inductive OutArg where
  | tupleArg (xs : List OutItem)
  | listArg (xs : List OutItem)
  | singleArg (x : OutItem)
deriving DecidableEq, Repr

/-- The interpreter state the output handler mutates: tensors marked as
network outputs so far, and the recorded `_output_names` list. -/
structure OutputState where
  networkOutputs : List TRTTensor
  output_names : List String
deriving DecidableEq, Repr

/-- The wrapping at the top of `TRTInterpreter.output`: a tuple stays, a list
becomes a tuple, anything else becomes a 1-tuple. -/
def wrapOutputs : OutArg → List OutItem
  | OutArg.tupleArg xs => xs
  | OutArg.listArg xs => xs
  | OutArg.singleArg x => [x]

def isITensor : OutItem → Bool
  | OutItem.itensor _ => true
  | OutItem.nonTensor => false

/-- The tensor inside an entry; only evaluated after the all-ITensor check. -/
def getITensor : OutItem → TRTTensor
  | OutItem.itensor t => t
  | OutItem.nonTensor => ⟨"", TRTDataType.float32, []⟩

/-- The operator-name tokens whose presence forces a boolean output dtype. -/
def boolNameTokens : List String :=
  ["eq", "gt", "lt", "or", "xor", "and", "not", "ne", "isinf", "any"]

/-- Split a character list at every occurrence of `c` (the semantics of
Python's `str.split` with an explicit separator: empty pieces are kept). -/
def splitOnChar (c : Char) : List Char → List (List Char)
  | [] => [[]]
  | x :: xs =>
    let r := splitOnChar c xs
    if x = c then
      [] :: r
    else
      match r with
      | [] => [[x]]
      | y :: ys => (x :: y) :: ys

/-- `any(op_name in output.name.split("_") for op_name in (...))`. -/
def outputIsBool (nm : String) : Bool :=
  boolNameTokens.any (fun op => ((splitOnChar '_' nm.toList).map String.mk).contains op)

/-- The per-output body of the loop in `TRTInterpreter.output`: decide the
boolean forcing from the producer-derived name, rename to `outputi`, then set
the dtype by rule (a) boolean forcing, else (b) the override at position `i`,
else (c) the fp16 downcast of a float32 output, else (d) leave unchanged. -/
def outputStep (output_dtypes : Option (List TRTDataType)) (output_fp16 : Bool)
    (i : Nat) (t : TRTTensor) : TRTTensor :=
  let output_bool := outputIsBool t.name
  let t1 : TRTTensor := { t with name := "output" ++ toString i }
  if output_bool then
    { t1 with dtype := TRTDataType.boolT }
  else
    match output_dtypes with
    | some ds => { t1 with dtype := ds.getD i t1.dtype }
    | none =>
      if output_fp16 && (t1.dtype == TRTDataType.float32) then
        { t1 with dtype := TRTDataType.float16 }
      else
        t1

/-- The `for i, output in enumerate(outputs)` loop, as the list of finalized
output tensors (each is renamed, marked, and dtype-adjusted in order). -/
def finalizeLoop (output_dtypes : Option (List TRTDataType)) (output_fp16 : Bool) :
    Nat → List TRTTensor → List TRTTensor
  | _, [] => []
  | i, t :: ts => outputStep output_dtypes output_fp16 i t
      :: finalizeLoop output_dtypes output_fp16 (i + 1) ts

/-- `TRTInterpreter.output`: wrap the argument, check that every entry is an
ITensor, check the override-count agreement, then finalize every output and
extend the state.  An error carries the state as it stands when raising. -/
def dtypeCountMismatch (output_dtypes : Option (List TRTDataType)) (n : Nat) : Bool :=
  match output_dtypes with
  | some ds => ds.length != n
  | none => false

def TRTInterpreter_output (output_dtypes : Option (List TRTDataType)) (output_fp16 : Bool)
    (st : OutputState) (arg : OutArg) :
    Except (String × OutputState) (OutputState × List TRTTensor) :=
  let outputs := wrapOutputs arg
  if !(outputs.all isITensor) then
    Except.error ("TensorRT requires all outputs to be Tensor!", st)
  else if dtypeCountMismatch output_dtypes outputs.length then
    Except.error ("Specified output dtypes differ from number of outputs", st)
  else
    let finals := finalizeLoop output_dtypes output_fp16 0 (outputs.map getITensor)
    Except.ok
      ({ networkOutputs := st.networkOutputs ++ finals,
         output_names := st.output_names
           ++ (List.range finals.length).map (fun i => "output" ++ toString i) },
       finals)

theorem finalizeLoop_length (output_dtypes : Option (List TRTDataType)) (output_fp16 : Bool) :
    ∀ (ts : List TRTTensor) (i : Nat),
      (finalizeLoop output_dtypes output_fp16 i ts).length = ts.length := by
  intro ts
  induction ts with
  | nil => intro i; simp [finalizeLoop]
  | cons t ts ih => intro i; simp [finalizeLoop, ih (i + 1)]

theorem finalizeLoop_getq (output_dtypes : Option (List TRTDataType)) (output_fp16 : Bool) :
    ∀ (ts : List TRTTensor) (i j : Nat),
      (finalizeLoop output_dtypes output_fp16 i ts)[j]?
        = ts[j]?.map (fun t => outputStep output_dtypes output_fp16 (i + j) t) := by
  intro ts
  induction ts with
  | nil => intro i j; simp [finalizeLoop]
  | cons t ts ih =>
    intro i j
    cases j with
    | zero => simp [finalizeLoop]
    | succ j =>
      have harith : i + 1 + j = i + (j + 1) := by omega
      have ih2 := ih (i + 1) j
      rw [harith] at ih2
      simp [finalizeLoop, ih2]

theorem output_ok_characterization (output_dtypes : Option (List TRTDataType))
    (output_fp16 : Bool) (st : OutputState) (arg : OutArg) (st' : OutputState)
    (outs : List TRTTensor)
    (hok : TRTInterpreter_output output_dtypes output_fp16 st arg = Except.ok (st', outs)) :
    outs = finalizeLoop output_dtypes output_fp16 0 ((wrapOutputs arg).map getITensor)
    ∧ st' = { networkOutputs := st.networkOutputs ++ outs,
              output_names := st.output_names
                ++ (List.range outs.length).map (fun i => "output" ++ toString i) } := by
  by_cases h1 : ((wrapOutputs arg).all isITensor) = true
  · by_cases h2 : dtypeCountMismatch output_dtypes (wrapOutputs arg).length = true
    · simp [TRTInterpreter_output, h1, h2] at hok
    · simp [TRTInterpreter_output, h1, h2] at hok
      refine ⟨hok.2.symm, ?_⟩
      rw [← hok.1, ← hok.2]
  · simp [TRTInterpreter_output, h1] at hok

/-- C3: whenever the output handler succeeds, an output whose producing name
contains one of the boolean-operator tokens (split on underscores) is
finalized with boolean dtype, whatever the override list and the fp16 mode
say — the boolean forcing takes precedence over rules (b), (c), (d). -/
theorem C3_bool_forcing_wins (output_dtypes : Option (List TRTDataType)) (output_fp16 : Bool)
    (st : OutputState) (arg : OutArg) (st' : OutputState) (outs : List TRTTensor)
    (hok : TRTInterpreter_output output_dtypes output_fp16 st arg = Except.ok (st', outs)) :
    ∀ (j : Nat) (t : TRTTensor), (wrapOutputs arg)[j]? = some (OutItem.itensor t) →
      outputIsBool t.name = true →
      ∃ t', outs[j]? = some t' ∧ t'.dtype = TRTDataType.boolT := by
  intro j t hj hbool
  obtain ⟨houts, -⟩ := output_ok_characterization _ _ _ _ _ _ hok
  subst houts
  rw [finalizeLoop_getq]
  have hmap : ((wrapOutputs arg).map getITensor)[j]? = some t := by
    rw [List.getElem?_map, hj]
    rfl
  rw [hmap]
  refine ⟨_, rfl, ?_⟩
  simp [outputStep, hbool]

/-- A concrete output tensor produced by an `eq` node. -/
def tEqOut : TRTTensor := ⟨"aten_ops_eq_1", TRTDataType.float32, [2]⟩

/-- The finalized form of `tEqOut`: renamed and forced to boolean. -/
def tEqFinal : TRTTensor := ⟨"output0", TRTDataType.boolT, [2]⟩

theorem C3_bool_forcing_wins_witness :
    ∃ t', [tEqFinal][0]? = some t' ∧ t'.dtype = TRTDataType.boolT :=
  C3_bool_forcing_wins (some [TRTDataType.float16]) true ⟨[], []⟩
    (OutArg.singleArg (OutItem.itensor tEqOut)) ⟨[tEqFinal], ["output0"]⟩ [tEqFinal]
    rfl 0 tEqOut rfl rfl

/-- C9: the output handler raises exactly when some wrapped entry is not a
network ITensor or a supplied override list's length differs from the output
count; on success every output is marked (appended to the network's output
list) and named `output0`, `output1`, ... in order. -/
theorem C9_output_error_iff (output_dtypes : Option (List TRTDataType)) (output_fp16 : Bool)
    (st : OutputState) (arg : OutArg) :
    ((∃ msg st', TRTInterpreter_output output_dtypes output_fp16 st arg
        = Except.error (msg, st'))
      ↔ ((wrapOutputs arg).all isITensor = false
          ∨ ∃ ds, output_dtypes = some ds ∧ ds.length ≠ (wrapOutputs arg).length))
    ∧ (∀ st' outs, TRTInterpreter_output output_dtypes output_fp16 st arg
          = Except.ok (st', outs) →
        outs.length = (wrapOutputs arg).length
        ∧ st'.networkOutputs = st.networkOutputs ++ outs
        ∧ st'.output_names = st.output_names
            ++ (List.range outs.length).map (fun i => "output" ++ toString i)) := by
  constructor
  · constructor
    · rintro ⟨msg, st', herr⟩
      by_cases h1 : ((wrapOutputs arg).all isITensor) = true
      · by_cases h2 : dtypeCountMismatch output_dtypes (wrapOutputs arg).length = true
        · right
          cases hds : output_dtypes with
          | none =>
            rw [hds] at h2
            simp [dtypeCountMismatch] at h2
          | some ds =>
            refine ⟨ds, rfl, ?_⟩
            rw [hds] at h2
            simpa [dtypeCountMismatch] using h2
        · simp [TRTInterpreter_output, h1, h2] at herr
      · left
        simpa using h1
    · intro h
      by_cases h1 : ((wrapOutputs arg).all isITensor) = true
      · have h2 : dtypeCountMismatch output_dtypes (wrapOutputs arg).length = true := by
          rcases h with h | ⟨ds, hds, hne⟩
          · rw [h1] at h
            cases h
          · simp [dtypeCountMismatch, hds, bne_iff_ne]
            exact hne
        refine ⟨"Specified output dtypes differ from number of outputs", st, ?_⟩
        simp [TRTInterpreter_output, h1, h2]
      · refine ⟨"TensorRT requires all outputs to be Tensor!", st, ?_⟩
        simp [TRTInterpreter_output, h1]
  · intro st' outs hok
    obtain ⟨houts, hst⟩ := output_ok_characterization _ _ _ _ _ _ hok
    refine ⟨?_, ?_, ?_⟩
    · rw [houts, finalizeLoop_length]
      simp
    · rw [hst]
    · rw [hst]

/-- C10: the output handler is atomic on failure — when it raises, the
interpreter state (marked outputs, recorded output names) is exactly the
state it was called with; both error checks precede every mutation. -/
theorem C10_output_atomic_on_failure (output_dtypes : Option (List TRTDataType))
    (output_fp16 : Bool) (st : OutputState) (arg : OutArg) (msg : String) (st' : OutputState)
    (herr : TRTInterpreter_output output_dtypes output_fp16 st arg = Except.error (msg, st')) :
    st' = st := by
  by_cases h1 : ((wrapOutputs arg).all isITensor) = true
  · by_cases h2 : dtypeCountMismatch output_dtypes (wrapOutputs arg).length = true
    · simp [TRTInterpreter_output, h1, h2] at herr
      exact herr.2.symm
    · simp [TRTInterpreter_output, h1, h2] at herr
  · simp [TRTInterpreter_output, h1] at herr
    exact herr.2.symm

theorem C10_output_atomic_on_failure_witness :
    (⟨[tEqOut], ["x"]⟩ : OutputState) = ⟨[tEqOut], ["x"]⟩ :=
  C10_output_atomic_on_failure none false ⟨[tEqOut], ["x"]⟩
    (OutArg.singleArg OutItem.nonTensor)
    "TensorRT requires all outputs to be Tensor!" ⟨[tEqOut], ["x"]⟩ rfl

/-- The min/opt/max triple of a dynamic `Input`. -/
structure DynamicShapeSpec where
  min_shape : List Int
  opt_shape : List Int
  max_shape : List Int
deriving DecidableEq, Repr

/-- `Input._ShapeMode`: a static shape tuple or a dynamic min/opt/max dict. -/
inductive InputSpecShape where
  | staticShape (s : List Int)
  | dynamicShape (d : DynamicShapeSpec)
deriving DecidableEq, Repr

/-- One caller-supplied `Input`: its shape mode and element dtype. -/
structure InputSpec where
  ishape : InputSpecShape
  dtype : TRTDataType
deriving DecidableEq, Repr

/-- One `set_shape` record of the single optimization profile. -/
structure ProfileEntry where
  pname : String
  minS : List Int
  optS : List Int
  maxS : List Int
deriving DecidableEq, Repr

/-- A network input declared by `network.add_input`. -/
structure NetworkInput where
  iname : String
  ishape : List Int
  idtype : TRTDataType
deriving DecidableEq, Repr

/-- The interpreter state the placeholder handler touches. -/
structure PlaceholderState where
  input_names : List String
  profileEntries : List ProfileEntry
  networkInputs : List NetworkInput
deriving DecidableEq, Repr

/-- The dynamic-branch shape loop of `TRTInterpreter.placeholder`: per axis,
the fixed dimension when min, opt and max agree, the wildcard -1 otherwise. -/
def dynShape : List Int → List Int → List Int → List Int
  | m :: ms, o :: os, x :: xs =>
    (if m = o ∧ o = x then m else -1) :: dynShape ms os xs
  | _, _, _ => []

/-- `TRTInterpreter.placeholder` for one input spec: record the input name;
for a dynamic spec record the (min, opt, max) profile entry, assert the three
shapes have equal rank, and declare the input with the computed wildcard/fixed
shape; for a static spec declare the fixed shape directly. -/
def TRTInterpreter_placeholder (target : String) (current_input : InputSpec)
    (st : PlaceholderState) : Except String (PlaceholderState × NetworkInput) :=
  let st := { st with input_names := st.input_names ++ [target] }
  match current_input.ishape with
  | InputSpecShape.dynamicShape d =>
    let entry : ProfileEntry := ⟨target, d.min_shape, d.opt_shape, d.max_shape⟩
    let st := { st with profileEntries := st.profileEntries ++ [entry] }
    if d.min_shape.length = d.opt_shape.length ∧ d.opt_shape.length = d.max_shape.length then
      let inp : NetworkInput := ⟨target, dynShape d.min_shape d.opt_shape d.max_shape,
        current_input.dtype⟩
      Except.ok ({ st with networkInputs := st.networkInputs ++ [inp] }, inp)
    else
      Except.error "min, opt and max shapes must have the same rank"
  | InputSpecShape.staticShape s =>
    let inp : NetworkInput := ⟨target, s, current_input.dtype⟩
    Except.ok ({ st with networkInputs := st.networkInputs ++ [inp] }, inp)

theorem dynShape_getq :
    ∀ (ms os xs : List Int), ms.length = os.length → os.length = xs.length →
      ∀ (j : Nat) (m o x : Int), ms[j]? = some m → os[j]? = some o → xs[j]? = some x →
        (dynShape ms os xs)[j]? = some (if m = o ∧ o = x then m else -1) := by
  intro ms
  induction ms with
  | nil => intro os xs h1 h2 j m o x hm; simp at hm
  | cons mh mt ih =>
    intro os xs h1 h2 j m o x hm ho hx
    cases os with
    | nil => simp at h1
    | cons oh ot =>
      cases xs with
      | nil => simp at h2
      | cons xh xt =>
        cases j with
        | zero =>
          simp at hm ho hx
          simp [dynShape, hm, ho, hx]
        | succ j =>
          simp at hm ho hx
          simp only [dynShape, List.getElem?_cons_succ]
          exact ih ot xt (by simpa using h1) (by simpa using h2) j m o x hm ho hx

/-- C7: for a dynamic input spec whose min/opt/max shapes have equal rank, the
placeholder handler declares a network input that carries the fixed dimension
on every axis where min, opt and max agree and the wildcard -1 on every other
axis, and appends the (min, opt, max) profile entry for that input name to
the optimization profile. -/
theorem C7_placeholder_dynamic (target : String) (d : DynamicShapeSpec)
    (dt : TRTDataType) (st : PlaceholderState)
    (hlen : d.min_shape.length = d.opt_shape.length
      ∧ d.opt_shape.length = d.max_shape.length) :
    ∃ st' inp, TRTInterpreter_placeholder target ⟨InputSpecShape.dynamicShape d, dt⟩ st
        = Except.ok (st', inp)
      ∧ inp.iname = target
      ∧ (∀ (j : Nat) (m o x : Int),
          d.min_shape[j]? = some m → d.opt_shape[j]? = some o → d.max_shape[j]? = some x →
            ((m = o ∧ o = x → inp.ishape[j]? = some m)
              ∧ (¬ (m = o ∧ o = x) → inp.ishape[j]? = some (-1))))
      ∧ st'.profileEntries = st.profileEntries
          ++ [⟨target, d.min_shape, d.opt_shape, d.max_shape⟩]
      ∧ st'.networkInputs = st.networkInputs ++ [inp]
      ∧ st'.input_names = st.input_names ++ [target] := by
  refine ⟨⟨st.input_names ++ [target],
      st.profileEntries ++ [(⟨target, d.min_shape, d.opt_shape, d.max_shape⟩ : ProfileEntry)],
      st.networkInputs
        ++ [(⟨target, dynShape d.min_shape d.opt_shape d.max_shape, dt⟩ : NetworkInput)]⟩,
    ⟨target, dynShape d.min_shape d.opt_shape d.max_shape, dt⟩, ?_, rfl, ?_, rfl, rfl, rfl⟩
  · simp [TRTInterpreter_placeholder, hlen]
  · intro j m o x hm ho hx
    have hg := dynShape_getq d.min_shape d.opt_shape d.max_shape hlen.1 hlen.2 j m o x hm ho hx
    constructor
    · intro hfix
      rw [hg, if_pos hfix]
    · intro hfix
      rw [hg, if_neg hfix]

theorem C7_placeholder_dynamic_witness :
    ∃ st' inp, TRTInterpreter_placeholder "x"
        ⟨InputSpecShape.dynamicShape ⟨[1, 2, 8], [1, 4, 8], [1, 8, 8]⟩, TRTDataType.float32⟩
        ⟨[], [], []⟩ = Except.ok (st', inp)
      ∧ inp.iname = "x"
      ∧ (∀ (j : Nat) (m o x : Int),
          ([1, 2, 8] : List Int)[j]? = some m → ([1, 4, 8] : List Int)[j]? = some o →
            ([1, 8, 8] : List Int)[j]? = some x →
            ((m = o ∧ o = x → inp.ishape[j]? = some m)
              ∧ (¬ (m = o ∧ o = x) → inp.ishape[j]? = some (-1))))
      ∧ st'.profileEntries = [] ++ [⟨"x", [1, 2, 8], [1, 4, 8], [1, 8, 8]⟩]
      ∧ st'.networkInputs = [] ++ [inp]
      ∧ st'.input_names = [] ++ ["x"] :=
  C7_placeholder_dynamic "x" ⟨[1, 2, 8], [1, 4, 8], [1, 8, 8]⟩ TRTDataType.float32
    ⟨[], [], []⟩ (by decide)

/-- The exception kinds the driver distinguishes: `AssertionError` and
`RuntimeError` are caught by the fallback policy, anything else propagates. -/
inductive PyError where
  | assertionError (msg : String)
  | runtimeError (msg : String)
  | otherError (msg : String)
deriving DecidableEq, Repr

/-- The `except (AssertionError, RuntimeError)` clause catches exactly these. -/
def PyError.isBuildError : PyError → Bool
  | PyError.assertionError _ => true
  | PyError.runtimeError _ => true
  | PyError.otherError _ => false

/-- A graph module, abstracted to the function it computes. -/
structure GraphModule where
  sem : Int → Int

/-- The slice of `CompilationSettings` the driver's fallback policy reads. -/
structure CompilationSettings where
  pass_through_build_failures : Bool
deriving DecidableEq, Repr

/-- A step preserves module semantics whenever it succeeds (the rewrite and
export steps are semantics-preserving transformations). -/
def preservesSem (f : GraphModule → Except PyError GraphModule) : Prop :=
  ∀ g g', f g = Except.ok g' → g'.sem = g.sem

/-- The try-body of `_pretraced_backend`: pre-AOT substitution, alias repair,
AOT export, lowering, then interpretation-and-build (`compile_module`), each
rebinding `gm`; a failure carries the error together with the module bound to
`gm` at the moment of failure (which the except clause returns). -/
def pretracedTryBody
    (pre_aot_substitutions repair_aliasing aot_export_joint_simple
      apply_lowering_passes compile_module : GraphModule → Except PyError GraphModule)
    (gm : GraphModule) : Except (PyError × GraphModule) GraphModule :=
  match pre_aot_substitutions gm with
  | Except.error e => Except.error (e, gm)
  | Except.ok gm1 =>
    match repair_aliasing gm1 with
    | Except.error e => Except.error (e, gm1)
    | Except.ok gm2 =>
      match aot_export_joint_simple gm2 with
      | Except.error e => Except.error (e, gm2)
      | Except.ok gm3 =>
        match apply_lowering_passes gm3 with
        | Except.error e => Except.error (e, gm3)
        | Except.ok gm4 =>
          match compile_module gm4 with
          | Except.error e => Except.error (e, gm4)
          | Except.ok trt_compiled => Except.ok trt_compiled

/-- `_pretraced_backend`: run the try-body; on an assertion-style or
runtime-style error consult `pass_through_build_failures` (false: return the
current graph module as fallback; true: re-raise); any other error kind
propagates unconditionally. -/
def pretraced_backend
    (pre_aot_substitutions repair_aliasing aot_export_joint_simple
      apply_lowering_passes compile_module : GraphModule → Except PyError GraphModule)
    (settings : CompilationSettings) (gm : GraphModule) : Except PyError GraphModule :=
  match pretracedTryBody pre_aot_substitutions repair_aliasing aot_export_joint_simple
      apply_lowering_passes compile_module gm with
  | Except.ok trt_compiled => Except.ok trt_compiled
  | Except.error (e, gmCur) =>
    match e with
    | PyError.assertionError _ =>
      if ¬ settings.pass_through_build_failures then Except.ok gmCur else Except.error e
    | PyError.runtimeError _ =>
      if ¬ settings.pass_through_build_failures then Except.ok gmCur else Except.error e
    | PyError.otherError _ => Except.error e

/-- C2: whenever a step of the driver fails with an assertion-style or
runtime-style error, the driver returns the current (semantically equal to
the original, since every completed step preserves semantics) graph module
when `pass_through_build_failures` is false and re-raises when it is true;
an error of any other kind propagates regardless of the flag. -/
theorem C2_driver_fallback
    (pre rep aot low comp : GraphModule → Except PyError GraphModule)
    (settings : CompilationSettings) (gm : GraphModule)
    (hpre : preservesSem pre) (hrep : preservesSem rep)
    (haot : preservesSem aot) (hlow : preservesSem low)
    (e : PyError) (gmCur : GraphModule)
    (herr : pretracedTryBody pre rep aot low comp gm = Except.error (e, gmCur)) :
    (e.isBuildError = true →
      (settings.pass_through_build_failures = false →
        pretraced_backend pre rep aot low comp settings gm = Except.ok gmCur
        ∧ gmCur.sem = gm.sem)
      ∧ (settings.pass_through_build_failures = true →
        pretraced_backend pre rep aot low comp settings gm = Except.error e))
    ∧ (e.isBuildError = false →
        pretraced_backend pre rep aot low comp settings gm = Except.error e) := by
  have hsem : gmCur.sem = gm.sem := by
    unfold pretracedTryBody at herr
    cases h1 : pre gm with
    | error e1 =>
      simp only [h1] at herr
      simp at herr
      rw [← herr.2]
    | ok gm1 =>
      simp only [h1] at herr
      cases h2 : rep gm1 with
      | error e2 =>
        simp only [h2] at herr
        simp at herr
        rw [← herr.2, hpre gm gm1 h1]
      | ok gm2 =>
        simp only [h2] at herr
        cases h3 : aot gm2 with
        | error e3 =>
          simp only [h3] at herr
          simp at herr
          rw [← herr.2, hrep gm1 gm2 h2, hpre gm gm1 h1]
        | ok gm3 =>
          simp only [h3] at herr
          cases h4 : low gm3 with
          | error e4 =>
            simp only [h4] at herr
            simp at herr
            rw [← herr.2, haot gm2 gm3 h3, hrep gm1 gm2 h2, hpre gm gm1 h1]
          | ok gm4 =>
            simp only [h4] at herr
            cases h5 : comp gm4 with
            | error e5 =>
              simp only [h5] at herr
              simp at herr
              rw [← herr.2, hlow gm3 gm4 h4, haot gm2 gm3 h3, hrep gm1 gm2 h2,
                hpre gm gm1 h1]
            | ok gm5 =>
              simp only [h5] at herr
              simp at herr
  have hback : pretraced_backend pre rep aot low comp settings gm
      = (match e with
        | PyError.assertionError _ =>
          if ¬ settings.pass_through_build_failures then Except.ok gmCur else Except.error e
        | PyError.runtimeError _ =>
          if ¬ settings.pass_through_build_failures then Except.ok gmCur else Except.error e
        | PyError.otherError _ => Except.error e) := by
    simp only [pretraced_backend, herr]
    cases e <;> rfl
  refine ⟨?_, ?_⟩
  · intro hbuild
    refine ⟨?_, ?_⟩
    · intro hflag
      refine ⟨?_, hsem⟩
      cases e with
      | assertionError m => rw [hback]; simp [hflag]
      | runtimeError m => rw [hback]; simp [hflag]
      | otherError m => simp [PyError.isBuildError] at hbuild
    · intro hflag
      cases e with
      | assertionError m => rw [hback]; simp [hflag]
      | runtimeError m => rw [hback]; simp [hflag]
      | otherError m => simp [PyError.isBuildError] at hbuild
  · intro hbuild
    cases e with
    | assertionError m => simp [PyError.isBuildError] at hbuild
    | runtimeError m => simp [PyError.isBuildError] at hbuild
    | otherError m => rw [hback]

/-- The identity graph module, concrete input for the driver evaluation. -/
def gmId : GraphModule := ⟨fun n => n⟩

/-- A step that succeeds and returns its module unchanged. -/
def stepOk : GraphModule → Except PyError GraphModule := fun g => Except.ok g

/-- A step that fails with a runtime-style error (an unregistered operator). -/
def stepFail : GraphModule → Except PyError GraphModule :=
  fun _ => Except.error (PyError.runtimeError "UnsupportedOperatorException")

theorem stepOk_preserves : preservesSem stepOk := by
  intro g g' h
  injection h with h2
  rw [← h2]

theorem C2_driver_fallback_witness :
    pretraced_backend stepOk stepOk stepOk stepOk stepFail ⟨false⟩ gmId = Except.ok gmId
    ∧ gmId.sem = gmId.sem :=
  ((C2_driver_fallback stepOk stepOk stepOk stepOk stepFail ⟨false⟩ gmId
    stepOk_preserves stepOk_preserves stepOk_preserves stepOk_preserves
    (PyError.runtimeError "UnsupportedOperatorException") gmId rfl).1 rfl).1 rfl

/-- Node kinds of the traced fx graph relevant to the aliasing passes. -/
inductive OpKind where
  | placeholder
  | callFunction
  | output
deriving DecidableEq, Repr

/-- One fx node: unique id, kind, target, and the ids of the nodes whose
values it consumes (an fx placeholder consumes nothing). -/
structure FxNode where
  nid : Nat
  op : OpKind
  target : String
  args : List Nat
deriving DecidableEq, Repr

/-- A traced graph: its nodes in dependency order. -/
structure FxGraph where
  nodes : List FxNode
deriving DecidableEq, Repr

/-- The node ids of a node list, in order. -/
def nids (nodes : List FxNode) : List Nat := nodes.map (fun n => n.nid)

/-- The largest node id (0 for the empty graph); fresh ids are above it. -/
def maxNid (nodes : List FxNode) : Nat := nodes.foldr (fun n m => max n.nid m) 0

/-- The ids of the placeholder nodes, in graph order. -/
def placeholderIds (g : FxGraph) : List Nat :=
  (g.nodes.filter (fun n => n.op == OpKind.placeholder)).map (fun n => n.nid)

/-- Rewrite every occurrence of `oldId` in a node's arguments to `newId`. -/
def substArgs (oldId newId : Nat) (n : FxNode) : FxNode :=
  { n with args := n.args.map (fun a => if a = oldId then newId else a) }

/-- `graph.inserting_after(node)`: place `c` directly after the node `pid`. -/
def insertAfterNode (nodes : List FxNode) (pid : Nat) (c : FxNode) : List FxNode :=
  nodes.flatMap (fun n => if n.nid = pid then [n, c] else [n])

/-- `node.replace_all_uses_with(new, delete_user_cb)`: rewrite `oldId` to
`newId` in the arguments of every node for which `replaceIn` holds. -/
def replaceAllUses (nodes : List FxNode) (oldId newId : Nat) (replaceIn : Nat → Bool) :
    List FxNode :=
  nodes.map (fun n => if replaceIn n.nid then substArgs oldId newId n else n)

/-- The body of `repair_input_aliasing`'s loop for one placeholder: create a
clone node with a fresh id directly after the placeholder and redirect every
use of the placeholder except the clone's own argument to the clone. -/
def repairStep (g : FxGraph) (pid : Nat) : FxGraph :=
  let cid := maxNid g.nodes + 1
  let c : FxNode := ⟨cid, OpKind.callFunction, "clone", [pid]⟩
  ⟨replaceAllUses (insertAfterNode g.nodes pid c) pid cid (fun i => i != cid)⟩

/-- `_repair_input_aliasing.repair_input_aliasing`: insert a clone after every
placeholder, in graph order. -/
def repair_input_aliasing (g : FxGraph) : FxGraph :=
  (placeholderIds g).foldl repairStep g

/-- `node.users` as a list: the nodes whose arguments mention `i`. -/
def usersOf (nodes : List FxNode) (i : Nat) : List FxNode :=
  nodes.filter (fun n => n.args.contains i)

/-- The body of `remove_input_alias_fixing_clones`'s loop for one placeholder:
when its only user is a clone node, redirect every use of the clone back to
the placeholder, erase the clone, and set the modified flag. -/
def removeStep (st : FxGraph × Bool) (pid : Nat) : FxGraph × Bool :=
  match usersOf st.1.nodes pid with
  | [u] =>
    if u.target = "clone" then
      (⟨(replaceAllUses st.1.nodes u.nid pid (fun _ => true)).filter
          (fun n => n.nid != u.nid)⟩, true)
    else st
  | _ => st

/-- Modelled from the spec: the dead-code elimination that follows a modifying
lowering pass (`Graph.eliminate_dead_code` of torch.fx, external to this
repository) removes call-operator nodes with zero remaining consumers,
iterating from the end of the graph; placeholders and the output node are
never removed. -/
def eliminate_dead_code : List FxNode → List FxNode
  | [] => []
  | n :: rest =>
    let rest' := eliminate_dead_code rest
    if n.op == OpKind.callFunction && rest'.all (fun m => !(m.args.contains n.nid)) then
      rest'
    else
      n :: rest'

/-- `pass_utils.clean_up_graph_after_modifications`: dead-code elimination,
lint and recompile (the latter two do not change the graph's structure). -/
def clean_up_graph_after_modifications (g : FxGraph) : FxGraph :=
  ⟨eliminate_dead_code g.nodes⟩

/-- `remove_input_alias_fixing_clones`: undo the aliasing clones placeholder
by placeholder; clean up only if the graph was modified. -/
def remove_input_alias_fixing_clones (g : FxGraph) : FxGraph :=
  let r := (placeholderIds g).foldl removeStep (g, false)
  if r.2 then clean_up_graph_after_modifications r.1 else r.1

/-- The clone node the repair pass inserts for placeholder `pid`. -/
def cloneNode (cid pid : Nat) : FxNode := ⟨cid, OpKind.callFunction, "clone", [pid]⟩

/-- The (placeholder id, clone id) assignment for a run of consecutive repair
steps: the `i`-th processed placeholder receives clone id `c + i`. -/
def buildAssign : List Nat → Nat → List (Nat × Nat)
  | [], _ => []
  | p :: ps, c => (p, c) :: buildAssign ps (c + 1)

/-- Apply an assignment as a substitution on argument ids. -/
def applySubst (assign : List (Nat × Nat)) (a : Nat) : Nat :=
  match assign.lookup a with
  | some c => c
  | none => a

/-- What the repair pass makes of one node under assignment `assign`: a
processed placeholder is followed by its clone, an unprocessed placeholder is
untouched, and every other node has its arguments redirected. -/
def repairFragment (assign : List (Nat × Nat)) (n : FxNode) : List FxNode :=
  if n.op == OpKind.placeholder then
    match assign.lookup n.nid with
    | some c => [n, cloneNode c n.nid]
    | none => [n]
  else
    [{ n with args := n.args.map (applySubst assign) }]

/-- The graph after the repair steps recorded in `assign`. -/
def repairedWith (assign : List (Nat × Nat)) (nodes : List FxNode) : List FxNode :=
  nodes.flatMap (repairFragment assign)

/-- Data-model invariant: every argument refers to an existing node. -/
def argsClosed (nodes : List FxNode) : Bool :=
  nodes.all (fun n => n.args.all (fun a => (nids nodes).contains a))

/-- Data-model invariant: placeholders (graph entries) consume nothing. -/
def placeholdersNoArgs (nodes : List FxNode) : Bool :=
  nodes.all (fun n => !(n.op == OpKind.placeholder) || n.args.isEmpty)

/-- No dead code: every call-operator node has a consumer after it. -/
def liveOk : List FxNode → Bool
  | [] => true
  | n :: rest =>
    (!(n.op == OpKind.callFunction) || rest.any (fun m => m.args.contains n.nid))
      && liveOk rest

theorem buildAssign_lookup_none :
    ∀ (qs : List Nat) (c a : Nat), a ∉ qs → (buildAssign qs c).lookup a = none := by
  intro qs
  induction qs with
  | nil => intro c a h; simp [buildAssign]
  | cons q qs ih =>
    intro c a h
    have hne : (a == q) = false := by
      simp only [beq_eq_false_iff_ne, ne_eq]
      intro he
      exact h (he ▸ List.mem_cons_self q qs)
    rw [buildAssign, List.lookup_cons, hne]
    exact ih (c + 1) a (fun hm => h (List.mem_cons_of_mem q hm))

theorem buildAssign_lookup_bounds :
    ∀ (qs : List Nat) (c a v : Nat), (buildAssign qs c).lookup a = some v →
      c ≤ v ∧ v < c + qs.length := by
  intro qs
  induction qs with
  | nil => intro c a v h; simp [buildAssign] at h
  | cons q qs ih =>
    intro c a v h
    simp only [List.length_cons]
    by_cases hq : a = q
    · have hbq : (a == q) = true := by simpa using hq
      rw [buildAssign, List.lookup_cons, hbq] at h
      injection h with h
      omega
    · have hbq : (a == q) = false := by simpa using hq
      rw [buildAssign, List.lookup_cons, hbq] at h
      obtain ⟨h1, h2⟩ := ih (c + 1) a v h
      omega

theorem buildAssign_append :
    ∀ (qs rs : List Nat) (c : Nat),
      buildAssign (qs ++ rs) c = buildAssign qs c ++ buildAssign rs (c + qs.length) := by
  intro qs
  induction qs with
  | nil => intro rs c; simp [buildAssign]
  | cons q qs ih =>
    intro rs c
    simp only [List.cons_append, buildAssign, List.length_cons, List.append_eq]
    rw [ih rs (c + 1)]
    have : c + 1 + qs.length = c + (qs.length + 1) := by omega
    rw [this]

theorem maxNid_le (nodes : List FxNode) (b : Nat) (h : ∀ n ∈ nodes, n.nid ≤ b) :
    maxNid nodes ≤ b := by
  induction nodes with
  | nil => simp [maxNid]
  | cons n ns ih =>
    simp only [maxNid, List.foldr_cons]
    have h1 := h n (List.mem_cons_self n ns)
    have h2 : maxNid ns ≤ b := ih (fun m hm => h m (List.mem_cons_of_mem n hm))
    simp only [maxNid] at h2
    omega

theorem le_maxNid (nodes : List FxNode) (n : FxNode) (h : n ∈ nodes) :
    n.nid ≤ maxNid nodes := by
  induction nodes with
  | nil => cases h
  | cons m ns ih =>
    rcases List.mem_cons.mp h with he | hm
    · subst he
      simp only [maxNid, List.foldr_cons]
      omega
    · have := ih hm
      simp only [maxNid, List.foldr_cons] at *
      omega

theorem maxNid_eq (nodes : List FxNode) (b : Nat) (hub : ∀ n ∈ nodes, n.nid ≤ b)
    (hmem : ∃ n ∈ nodes, n.nid = b) : maxNid nodes = b := by
  obtain ⟨n, hn, he⟩ := hmem
  have := le_maxNid nodes n hn
  have := maxNid_le nodes b hub
  omega

theorem applySubst_nil (a : Nat) : applySubst [] a = a := by
  simp [applySubst]

theorem repairedWith_nil (nodes : List FxNode) : repairedWith [] nodes = nodes := by
  induction nodes with
  | nil => simp [repairedWith]
  | cons n ns ih =>
    simp only [repairedWith, List.flatMap_cons] at ih ⊢
    rw [ih]
    by_cases h : (n.op == OpKind.placeholder) = true
    · simp [repairFragment, h]
    · simp only [repairFragment, h, Bool.false_eq_true, if_false]
      have harg : List.map (applySubst []) n.args = n.args := by
        have hpt : ∀ a ∈ n.args, applySubst [] a = id a := fun a _ => applySubst_nil a
        rw [List.map_congr_left hpt, List.map_id]
      rw [harg]
      rfl

theorem mem_placeholderIds (nodes : List FxNode) (p : Nat) :
    p ∈ placeholderIds ⟨nodes⟩ ↔ ∃ n ∈ nodes, n.op = OpKind.placeholder ∧ n.nid = p := by
  simp [placeholderIds, List.mem_filter]
  constructor
  · rintro ⟨n, ⟨hn, hop⟩, he⟩
    exact ⟨n, hn, by simpa using hop, he⟩
  · rintro ⟨n, hn, hop, he⟩
    exact ⟨n, ⟨hn, by simpa using hop⟩, he⟩

theorem substArgs_noargs (o nw : Nat) (n : FxNode) (h : n.args = []) : substArgs o nw n = n := by
  obtain ⟨i, op, t, a⟩ := n
  simp only at h
  subst h
  simp [substArgs]

theorem placeholdersNoArgs_spec (nodes : List FxNode) (h : placeholdersNoArgs nodes = true) :
    ∀ n ∈ nodes, n.op = OpKind.placeholder → n.args = [] := by
  intro n hn hop
  simp only [placeholdersNoArgs, List.all_eq_true] at h
  have h2 := h n hn
  rw [hop] at h2
  simpa using h2

theorem maxNid_le_repairedWith (nodes : List FxNode) (assign : List (Nat × Nat)) :
    maxNid nodes ≤ maxNid (repairedWith assign nodes) := by
  apply maxNid_le
  intro n hn
  by_cases hop : (n.op == OpKind.placeholder) = true
  · have hmem : n ∈ repairedWith assign nodes := by
      rw [repairedWith]
      apply List.mem_flatMap.mpr
      refine ⟨n, hn, ?_⟩
      cases hl : assign.lookup n.nid with
      | some c => simp [repairFragment, hop, hl]
      | none => simp [repairFragment, hop, hl]
    exact le_maxNid _ n hmem
  · have hmem : { n with args := n.args.map (applySubst assign) }
        ∈ repairedWith assign nodes := by
      rw [repairedWith]
      apply List.mem_flatMap.mpr
      refine ⟨n, hn, ?_⟩
      simp [repairFragment, hop]
    have hle := le_maxNid _ _ hmem
    simpa using hle

theorem mem_repairedWith_bound (nodes : List FxNode) (assign : List (Nat × Nat)) (B : Nat)
    (hn : ∀ n ∈ nodes, n.nid ≤ B) (hv : ∀ a v, assign.lookup a = some v → v ≤ B) :
    ∀ m ∈ repairedWith assign nodes, m.nid ≤ B := by
  intro m hm
  rw [repairedWith] at hm
  obtain ⟨n, hnmem, hfrag⟩ := List.mem_flatMap.mp hm
  by_cases hop : (n.op == OpKind.placeholder) = true
  · cases hl : assign.lookup n.nid with
    | some c =>
      simp only [repairFragment, hop, if_true, hl] at hfrag
      rcases List.mem_cons.mp hfrag with he | hfrag
      · rw [he]; exact hn n hnmem
      · rcases List.mem_cons.mp hfrag with he | hfrag
        · rw [he]; exact hv n.nid c hl
        · cases hfrag
    | none =>
      simp only [repairFragment, hop, if_true, hl] at hfrag
      rcases List.mem_cons.mp hfrag with he | hfrag
      · rw [he]; exact hn n hnmem
      · cases hfrag
  · simp only [repairFragment, hop, if_false] at hfrag
    rcases List.mem_cons.mp hfrag with he | hfrag
    · rw [he]; exact hn n hnmem
    · cases hfrag

theorem clone_mem_repairedWith (nodes : List FxNode) (assign : List (Nat × Nat))
    (p c : Nat) (np : FxNode) (hnp : np ∈ nodes) (hop : np.op = OpKind.placeholder)
    (hnid : np.nid = p) (hc : assign.lookup p = some c) :
    cloneNode c p ∈ repairedWith assign nodes := by
  rw [repairedWith]
  apply List.mem_flatMap.mpr
  refine ⟨np, hnp, ?_⟩
  have hop2 : (np.op == OpKind.placeholder) = true := by simp [hop]
  simp only [repairFragment, hop2, if_true, hnid, hc]
  exact List.mem_cons_of_mem _ (List.mem_cons_self _ _)

theorem lookup_snoc (assign : List (Nat × Nat)) (p cid a : Nat) :
    (assign ++ [(p, cid)]).lookup a
      = match assign.lookup a with
        | some v => some v
        | none => if a = p then some cid else none := by
  rw [List.lookup_append]
  cases hl : assign.lookup a with
  | some v => rfl
  | none =>
    simp only [Option.or]
    by_cases hap : a = p
    · subst hap
      simp [List.lookup_cons]
    · have : (a == p) = false := by simpa using hap
      simp [List.lookup_cons, this, hap]

theorem placeholderIds_repairedWith (nodes : List FxNode) (assign : List (Nat × Nat)) :
    placeholderIds ⟨repairedWith assign nodes⟩ = placeholderIds ⟨nodes⟩ := by
  simp only [placeholderIds, repairedWith, List.filter_flatMap, List.map_flatMap]
  induction nodes with
  | nil => simp
  | cons n ns ih =>
    rw [List.flatMap_cons, ih, List.filter_cons]
    by_cases hop : (n.op == OpKind.placeholder) = true
    · cases hl : assign.lookup n.nid with
      | some c =>
        simp only [repairFragment, hop, if_true, hl]
        simp [cloneNode, hop]
      | none =>
        simp only [repairFragment, hop, if_true, hl]
        simp [hop]
    · simp only [repairFragment, hop, if_false]
      simp [hop]

theorem repairStep_char (nodes : List FxNode) (assign : List (Nat × Nat)) (p cid : Nat)
    (np : FxNode)
    (hnodup : (nids nodes).Nodup)
    (hph : placeholdersNoArgs nodes = true)
    (hnp : np ∈ nodes) (hnpop : np.op = OpKind.placeholder) (hnpid : np.nid = p)
    (hlookp : assign.lookup p = none)
    (hvals : ∀ a v, assign.lookup a = some v → maxNid nodes + 1 ≤ v ∧ v < cid)
    (hmax : maxNid (repairedWith assign nodes) + 1 = cid) :
    repairStep ⟨repairedWith assign nodes⟩ p
      = ⟨repairedWith (assign ++ [(p, cid)]) nodes⟩ := by
  have hM : ∀ n ∈ nodes, n.nid ≤ maxNid nodes := fun n hn => le_maxNid nodes n hn
  have hMlt : maxNid nodes < cid := by
    have h1 := maxNid_le_repairedWith nodes assign
    omega
  have hpM : p ≤ maxNid nodes := hnpid ▸ hM np hnp
  have hphn := placeholdersNoArgs_spec nodes hph
  have huniq : ∀ n ∈ nodes, n.nid = p → n = np := by
    intro n hn he
    exact List.inj_on_of_nodup_map hnodup hn hnp (by rw [he, hnpid])
  have hstep : repairStep ⟨repairedWith assign nodes⟩ p
      = ⟨replaceAllUses (insertAfterNode (repairedWith assign nodes) p (cloneNode cid p))
          p cid (fun i => i != cid)⟩ := by
    unfold repairStep
    rw [show (FxGraph.mk (repairedWith assign nodes)).nodes = repairedWith assign nodes
      from rfl]
    rw [hmax]
    rfl
  rw [hstep]
  congr 1
  unfold insertAfterNode replaceAllUses
  rw [repairedWith, List.flatMap_assoc, List.map_flatMap]
  rw [repairedWith]
  apply List.flatMap_congr
  intro n hn
  have hnidM : n.nid ≤ maxNid nodes := hM n hn
  by_cases hop : n.op = OpKind.placeholder
  · have hopb : (n.op == OpKind.placeholder) = true := by simp [hop]
    have hargs0 : n.args = [] := hphn n hn hop
    by_cases hnid : n.nid = p
    · have hlookn : assign.lookup n.nid = none := by rw [hnid]; exact hlookp
      have hlookn' : (assign ++ [(p, cid)]).lookup n.nid = some cid := by
        rw [lookup_snoc, hlookn, hnid]
        simp
      simp only [repairFragment, hopb, if_true, hlookn, hlookn']
      simp only [List.flatMap_cons, List.flatMap_nil, List.append_nil]
      rw [if_pos hnid]
      have hneq : (n.nid != cid) = true := by
        simp only [bne_iff_ne, ne_eq]
        omega
      have hceq : ((cloneNode cid p).nid != cid) = false := by
        simp [cloneNode]
      simp only [List.map_cons, List.map_nil, hneq, if_true, hceq, Bool.false_eq_true, if_false]
      rw [substArgs_noargs p cid n hargs0, hnid]
    · have hnep : ∀ v, assign.lookup n.nid = some v → v ≠ p := by
        intro v hv
        have := hvals n.nid v hv
        omega
      have hlookeq : (assign ++ [(p, cid)]).lookup n.nid = assign.lookup n.nid := by
        rw [lookup_snoc]
        cases hl : assign.lookup n.nid with
        | some v => rfl
        | none => simp [hnid]
      cases hl : assign.lookup n.nid with
      | some c' =>
        have hc' := hvals n.nid c' hl
        simp only [repairFragment, hopb, if_true, hl, hlookeq]
        simp only [List.flatMap_cons, List.flatMap_nil, List.append_nil]
        rw [if_neg hnid]
        have hcnep : ¬ ((cloneNode c' n.nid).nid = p) := by
          simp only [cloneNode]
          omega
        rw [List.cons_append, List.nil_append]
        rw [if_neg hcnep]
        have hneq : (n.nid != cid) = true := by
          simp only [bne_iff_ne, ne_eq]
          omega
        have hcneq : ((cloneNode c' n.nid).nid != cid) = true := by
          simp only [cloneNode, bne_iff_ne, ne_eq]
          omega
        simp only [List.map_cons, List.map_nil, hneq, if_true, hcneq]
        rw [substArgs_noargs p cid n hargs0]
        have hclone : substArgs p cid (cloneNode c' n.nid) = cloneNode c' n.nid := by
          simp [substArgs, cloneNode, hnid]
        rw [hclone]
      | none =>
        simp only [repairFragment, hopb, if_true, hl, hlookeq]
        simp only [List.flatMap_cons, List.flatMap_nil, List.append_nil]
        rw [if_neg hnid]
        have hneq : (n.nid != cid) = true := by
          simp only [bne_iff_ne, ne_eq]
          omega
        simp only [List.map_cons, List.map_nil, hneq, if_true]
        rw [substArgs_noargs p cid n hargs0]
  · have hopb : (n.op == OpKind.placeholder) = false := by simp [hop]
    have hnid : ¬ (n.nid = p) := by
      intro he
      exact hop ((huniq n hn he) ▸ hnpop)
    simp only [repairFragment, hopb, Bool.false_eq_true, if_false]
    simp only [List.flatMap_cons, List.flatMap_nil, List.append_nil]
    rw [if_neg (show ¬ (({ n with args := n.args.map (applySubst assign) } : FxNode).nid = p)
      from hnid)]
    have hneq : (({ n with args := n.args.map (applySubst assign) } : FxNode).nid != cid)
        = true := by
      simp only [bne_iff_ne, ne_eq]
      intro he
      exact absurd he (by omega)
    simp only [List.map_cons, List.map_nil, hneq, if_true]
    congr 1
    simp only [substArgs, List.map_map]
    congr 1
    apply List.map_congr_left
    intro a ha
    simp only [Function.comp_apply, applySubst, lookup_snoc]
    cases hl : assign.lookup a with
    | some v =>
      have hb := hvals a v hl
      have hvp : ¬ (v = p) := by omega
      simp [hvp]
    | none =>
      by_cases hap : a = p
      · simp [hap]
      · simp [hap]

theorem maxNid_repaired_snoc (nodes : List FxNode) (assign : List (Nat × Nat))
    (p cid : Nat) (np : FxNode)
    (hnp : np ∈ nodes) (hnpop : np.op = OpKind.placeholder) (hnpid : np.nid = p)
    (hlookp : assign.lookup p = none)
    (hvals : ∀ a v, assign.lookup a = some v → v < cid)
    (hMc : maxNid nodes < cid) :
    maxNid (repairedWith (assign ++ [(p, cid)]) nodes) = cid := by
  apply maxNid_eq
  · apply mem_repairedWith_bound
    · intro n hn
      have := le_maxNid nodes n hn
      omega
    · intro a v hv
      rw [lookup_snoc] at hv
      cases hl : assign.lookup a with
      | some w =>
        rw [hl] at hv
        injection hv with hv
        have := hvals a w hl
        omega
      | none =>
        rw [hl] at hv
        by_cases hap : a = p
        · rw [if_pos hap] at hv
          injection hv with hv
          omega
        · rw [if_neg hap] at hv
          cases hv
  · refine ⟨cloneNode cid p, ?_, rfl⟩
    apply clone_mem_repairedWith nodes _ p cid np hnp hnpop hnpid
    rw [lookup_snoc, hlookp]
    simp

theorem placeholderIds_nodup (nodes : List FxNode) (h : (nids nodes).Nodup) :
    (placeholderIds ⟨nodes⟩).Nodup := by
  have hsub : (placeholderIds ⟨nodes⟩).Sublist (nids nodes) := by
    simp only [placeholderIds, nids]
    exact (List.filter_sublist nodes).map _
  exact List.Nodup.sublist hsub h

theorem repair_fold_char (nodes : List FxNode)
    (hnodup : (nids nodes).Nodup) (hph : placeholdersNoArgs nodes = true) :
    ∀ (rs qs : List Nat),
      qs ++ rs = placeholderIds ⟨nodes⟩ →
      maxNid (repairedWith (buildAssign qs (maxNid nodes + 1)) nodes)
          = maxNid nodes + qs.length →
      rs.foldl repairStep ⟨repairedWith (buildAssign qs (maxNid nodes + 1)) nodes⟩
        = ⟨repairedWith (buildAssign (qs ++ rs) (maxNid nodes + 1)) nodes⟩ := by
  intro rs
  induction rs with
  | nil =>
    intro qs hsplit hmax
    simp [List.foldl_nil]
  | cons r rs ih =>
    intro qs hsplit hmax
    have hrps : r ∈ placeholderIds ⟨nodes⟩ := by
      rw [← hsplit]
      exact List.mem_append.mpr (Or.inr (List.mem_cons_self r rs))
    obtain ⟨np, hnp, hnpop, hnpid⟩ := (mem_placeholderIds nodes r).mp hrps
    have hpsnodup : (placeholderIds ⟨nodes⟩).Nodup := placeholderIds_nodup nodes hnodup
    have hrq : r ∉ qs := by
      rw [← hsplit] at hpsnodup
      obtain ⟨h1, h2, hdisj⟩ := List.nodup_append.mp hpsnodup
      intro hm
      exact absurd (List.mem_cons_self r rs) (hdisj hm)
    have hstep := repairStep_char nodes (buildAssign qs (maxNid nodes + 1)) r
      (maxNid nodes + qs.length + 1) np hnodup hph hnp hnpop hnpid
      (buildAssign_lookup_none qs (maxNid nodes + 1) r hrq)
      (fun a v hv => by
        have := buildAssign_lookup_bounds qs (maxNid nodes + 1) a v hv
        omega)
      (by omega)
    rw [List.foldl_cons, hstep]
    have hsnoc : buildAssign qs (maxNid nodes + 1) ++ [(r, maxNid nodes + qs.length + 1)]
        = buildAssign (qs ++ [r]) (maxNid nodes + 1) := by
      rw [buildAssign_append]
      have : maxNid nodes + 1 + qs.length = maxNid nodes + qs.length + 1 := by omega
      rw [this]
      simp [buildAssign]
    rw [hsnoc]
    have hmax' : maxNid (repairedWith (buildAssign (qs ++ [r]) (maxNid nodes + 1)) nodes)
        = maxNid nodes + (qs ++ [r]).length := by
      rw [← hsnoc]
      rw [maxNid_repaired_snoc nodes (buildAssign qs (maxNid nodes + 1)) r
        (maxNid nodes + qs.length + 1) np hnp hnpop hnpid
        (buildAssign_lookup_none qs (maxNid nodes + 1) r hrq)
        (fun a v hv => by
          have := buildAssign_lookup_bounds qs (maxNid nodes + 1) a v hv
          omega)
        (by omega)]
      simp only [List.length_append, List.length_cons, List.length_nil]
      omega
    have hresult := ih (qs ++ [r])
      (by rw [List.append_assoc]; simpa using hsplit) hmax'
    rw [hresult]
    rw [List.append_assoc]
    rfl

theorem flatMap_eq_nil_of (l : List FxNode) (f : FxNode → List FxNode)
    (h : ∀ x ∈ l, f x = []) : l.flatMap f = [] := by
  induction l with
  | nil => simp
  | cons x xs ih =>
    rw [List.flatMap_cons, h x (List.mem_cons_self x xs)]
    exact ih (fun y hy => h y (List.mem_cons_of_mem x hy))

theorem flatMap_if_nid (nodes : List FxNode) (np : FxNode) (v : FxNode)
    (hnodup : (nids nodes).Nodup) (hnp : np ∈ nodes)
    (f : FxNode → List FxNode)
    (hf : ∀ n ∈ nodes, f n = if n.nid = np.nid then [v] else []) :
    nodes.flatMap f = [v] := by
  obtain ⟨l1, l2, hdecomp⟩ := List.append_of_mem hnp
  subst hdecomp
  have hnids : nids (l1 ++ np :: l2) = nids l1 ++ np.nid :: nids l2 := by simp [nids]
  rw [hnids] at hnodup
  obtain ⟨h1, h2, hdisj⟩ := List.nodup_append.mp hnodup
  have hnotl1 : np.nid ∉ nids l1 := fun hm => absurd (List.mem_cons_self _ _) (hdisj hm)
  have hnotl2 : np.nid ∉ nids l2 := (List.nodup_cons.mp h2).1
  rw [List.flatMap_append, List.flatMap_cons]
  have hl1 : l1.flatMap f = [] := by
    apply flatMap_eq_nil_of
    intro n hn
    rw [hf n (List.mem_append.mpr (Or.inl hn))]
    rw [if_neg]
    intro he
    exact hnotl1 (he ▸ List.mem_map.mpr ⟨n, hn, rfl⟩)
  have hl2 : l2.flatMap f = [] := by
    apply flatMap_eq_nil_of
    intro n hn
    rw [hf n (List.mem_append.mpr (Or.inr (List.mem_cons_of_mem np hn)))]
    rw [if_neg]
    intro he
    exact hnotl2 (he ▸ List.mem_map.mpr ⟨n, hn, rfl⟩)
  rw [hl1, hl2, hf np (List.mem_append.mpr (Or.inr (List.mem_cons_self np l2)))]
  simp

theorem argsClosed_spec (nodes : List FxNode) (h : argsClosed nodes = true) :
    ∀ n ∈ nodes, ∀ a ∈ n.args, a ≤ maxNid nodes := by
  intro n hn a ha
  simp only [argsClosed, List.all_eq_true] at h
  have h3 := h n hn a ha
  have h4 : a ∈ nids nodes := by simpa using h3
  obtain ⟨m, hm, he⟩ := List.mem_map.mp h4
  rw [← he]
  exact le_maxNid nodes m hm

theorem removeStep_eq (g : FxGraph) (b : Bool) (pid : Nat) :
    removeStep (g, b) pid
      = match usersOf g.nodes pid with
        | [u] =>
          if u.target = "clone" then
            (⟨(replaceAllUses g.nodes u.nid pid (fun _ => true)).filter
                (fun n => n.nid != u.nid)⟩, true)
          else (g, b)
        | _ => (g, b) := rfl

theorem removeStep_char (nodes : List FxNode) (rs : List Nat) (p c : Nat) (b : Bool)
    (np : FxNode)
    (hnodup : (nids nodes).Nodup)
    (hph : placeholdersNoArgs nodes = true)
    (hargs : argsClosed nodes = true)
    (hnp : np ∈ nodes) (hnpop : np.op = OpKind.placeholder) (hnpid : np.nid = p)
    (hprs : p ∉ rs)
    (hMc : maxNid nodes < c) :
    removeStep (⟨repairedWith (buildAssign (p :: rs) c) nodes⟩, b) p
      = (⟨repairedWith (buildAssign rs (c + 1)) nodes⟩, true) := by
  have hM : ∀ n ∈ nodes, n.nid ≤ maxNid nodes := fun n hn => le_maxNid nodes n hn
  have hpM : p ≤ maxNid nodes := hnpid ▸ hM np hnp
  have hphn := placeholdersNoArgs_spec nodes hph
  have hargsB := argsClosed_spec nodes hargs
  have huniq : ∀ n ∈ nodes, n.nid = p → n = np := by
    intro n hn he
    exact List.inj_on_of_nodup_map hnodup hn hnp (by rw [he, hnpid])
  have hlkp : (buildAssign (p :: rs) c).lookup p = some c := by
    rw [buildAssign, List.lookup_cons]
    simp
  have hlkq : ∀ q, q ≠ p →
      (buildAssign (p :: rs) c).lookup q = (buildAssign rs (c + 1)).lookup q := by
    intro q hq
    rw [buildAssign, List.lookup_cons]
    have : (q == p) = false := by simpa using hq
    rw [this]
  have hvalsAll : ∀ a v, (buildAssign (p :: rs) c).lookup a = some v → c ≤ v := by
    intro a v hv
    exact (buildAssign_lookup_bounds (p :: rs) c a v hv).1
  have hvalsTail : ∀ a v, (buildAssign rs (c + 1)).lookup a = some v → c + 1 ≤ v := by
    intro a v hv
    exact (buildAssign_lookup_bounds rs (c + 1) a v hv).1
  have hlkpnone : (buildAssign rs (c + 1)).lookup p = none :=
    buildAssign_lookup_none rs (c + 1) p hprs
  -- (i) the placeholder's only user is its clone
  have husers : usersOf (repairedWith (buildAssign (p :: rs) c) nodes) p
      = [cloneNode c p] := by
    unfold usersOf
    rw [repairedWith, List.filter_flatMap]
    apply flatMap_if_nid nodes np (cloneNode c p) hnodup hnp
    intro n hn
    by_cases hop : n.op = OpKind.placeholder
    · have hopb : (n.op == OpKind.placeholder) = true := by simp [hop]
      have hargs0 : n.args = [] := hphn n hn hop
      by_cases hnid : n.nid = p
      · have hl : (buildAssign (p :: rs) c).lookup n.nid = some c := by rw [hnid]; exact hlkp
        simp only [repairFragment, hopb, if_true, hl]
        rw [if_pos (by rw [hnid, hnpid])]
        simp [List.filter_cons, hargs0, cloneNode, hnid]
      · have hcne : ∀ c'', ¬ ((cloneNode c'' n.nid).args.contains p = true) := by
          intro c'' hc
          simp [cloneNode] at hc
          exact hnid hc.symm
        rw [if_neg (by rw [hnpid]; exact hnid)]
        cases hl : (buildAssign (p :: rs) c).lookup n.nid with
        | some c'' =>
          have hnid2 : ¬ (p = n.nid) := fun h => hnid h.symm
          simp only [repairFragment, hopb, if_true, hl]
          simp [List.filter_cons, hargs0, cloneNode, hnid, hnid2]
        | none =>
          simp only [repairFragment, hopb, if_true, hl]
          simp [List.filter_cons, hargs0]
    · have hopb : (n.op == OpKind.placeholder) = false := by simp [hop]
      have hnid : ¬ (n.nid = p) := by
        intro he
        exact hop ((huniq n hn he) ▸ hnpop)
      rw [if_neg (by rw [hnpid]; exact hnid)]
      simp only [repairFragment, hopb, Bool.false_eq_true, if_false]
      rw [List.filter_cons]
      have hnouse : (({ n with args := n.args.map (applySubst (buildAssign (p :: rs) c)) }
          : FxNode).args.contains p) = false := by
        simp only [List.contains_eq_any_beq, List.any_eq_true, not_exists]
        rw [Bool.eq_false_iff]
        intro hex
        obtain ⟨x, hx, hbe⟩ := List.any_eq_true.mp hex
        obtain ⟨a, ha, hxa⟩ := List.mem_map.mp hx
        have hxp : p = x := by simpa using hbe
        rw [← hxa] at hxp
        unfold applySubst at hxp
        cases hl : (buildAssign (p :: rs) c).lookup a with
        | some v =>
          rw [hl] at hxp
          simp only [] at hxp
          have := hvalsAll a v hl
          omega
        | none =>
          rw [hl] at hxp
          simp only [] at hxp
          rw [show a = p from hxp.symm, hlkp] at hl
          cases hl
      rw [hnouse]
      simp
  -- (ii) the rewrite-and-erase body undoes one assignment
  have hbody : (replaceAllUses (repairedWith (buildAssign (p :: rs) c) nodes) c p
        (fun _ => true)).filter (fun n => n.nid != c)
      = repairedWith (buildAssign rs (c + 1)) nodes := by
    unfold replaceAllUses
    rw [repairedWith, List.map_flatMap, List.filter_flatMap, repairedWith]
    apply List.flatMap_congr
    intro n hn
    have hnidM : n.nid ≤ maxNid nodes := hM n hn
    by_cases hop : n.op = OpKind.placeholder
    · have hopb : (n.op == OpKind.placeholder) = true := by simp [hop]
      have hargs0 : n.args = [] := hphn n hn hop
      by_cases hnid : n.nid = p
      · have hl : (buildAssign (p :: rs) c).lookup n.nid = some c := by rw [hnid]; exact hlkp
        have hl' : (buildAssign rs (c + 1)).lookup n.nid = none := by rw [hnid]; exact hlkpnone
        simp only [repairFragment, hopb, if_true, hl, hl']
        simp only [List.map_cons, List.map_nil, if_true]
        rw [substArgs_noargs c p n hargs0]
        have hsc : substArgs c p (cloneNode c n.nid) = cloneNode c n.nid := by
          simp only [substArgs, cloneNode, List.map_cons, List.map_nil]
          rw [if_neg (by omega)]
        rw [hsc]
        rw [List.filter_cons, List.filter_cons]
        have h1 : (n.nid != c) = true := by simp only [bne_iff_ne, ne_eq]; omega
        have h2 : ((cloneNode c n.nid).nid != c) = false := by simp [cloneNode]
        rw [h1, h2]
        simp
      · have hl := hlkq n.nid hnid
        cases hl2 : (buildAssign rs (c + 1)).lookup n.nid with
        | some c'' =>
          rw [hl2] at hl
          simp only [repairFragment, hopb, if_true, hl, hl2]
          simp only [List.map_cons, List.map_nil, if_true]
          rw [substArgs_noargs c p n hargs0]
          have hc'' := hvalsTail n.nid c'' hl2
          have hsc : substArgs c p (cloneNode c'' n.nid) = cloneNode c'' n.nid := by
            simp only [substArgs, cloneNode, List.map_cons, List.map_nil]
            rw [if_neg (by omega)]
          rw [hsc]
          rw [List.filter_cons, List.filter_cons]
          have h1 : (n.nid != c) = true := by simp only [bne_iff_ne, ne_eq]; omega
          have h2 : ((cloneNode c'' n.nid).nid != c) = true := by
            simp only [cloneNode, bne_iff_ne, ne_eq]
            omega
          rw [h1, h2]
          simp
        | none =>
          rw [hl2] at hl
          simp only [repairFragment, hopb, if_true, hl, hl2]
          simp only [List.map_cons, List.map_nil, if_true]
          rw [substArgs_noargs c p n hargs0]
          rw [List.filter_cons]
          have h1 : (n.nid != c) = true := by simp only [bne_iff_ne, ne_eq]; omega
          rw [h1]
          simp
    · have hopb : (n.op == OpKind.placeholder) = false := by simp [hop]
      simp only [repairFragment, hopb, Bool.false_eq_true, if_false]
      simp only [List.map_cons, List.map_nil, if_true]
      rw [List.filter_cons]
      have h1 : ((substArgs c p
          { n with args := n.args.map (applySubst (buildAssign (p :: rs) c)) }).nid != c)
          = true := by
        simp only [substArgs, bne_iff_ne, ne_eq]
        intro he
        exact absurd he (by omega)
      rw [h1]
      have hargsEq : List.map (fun a => if a = c then p else a)
            (List.map (applySubst (buildAssign (p :: rs) c)) n.args)
          = List.map (applySubst (buildAssign rs (c + 1))) n.args := by
        rw [List.map_map]
        apply List.map_congr_left
        intro a ha
        have haM : a ≤ maxNid nodes := hargsB n hn a ha
        simp only [Function.comp_apply, applySubst]
        by_cases hap : a = p
        · subst hap
          rw [hlkp, hlkpnone]
          simp
        · rw [hlkq a hap]
          cases hl : (buildAssign rs (c + 1)).lookup a with
          | some v =>
            simp only []
            have := hvalsTail a v hl
            rw [if_neg (by omega)]
          | none =>
            simp only []
            rw [if_neg (by omega)]
      simp only [substArgs, hargsEq]
      simp
  rw [removeStep_eq, husers]
  show (if (cloneNode c p).target = "clone" then
      ((⟨(replaceAllUses (repairedWith (buildAssign (p :: rs) c) nodes) c p
          (fun _ => true)).filter (fun n => n.nid != c)⟩ : FxGraph), true)
    else (⟨repairedWith (buildAssign (p :: rs) c) nodes⟩, b))
    = (⟨repairedWith (buildAssign rs (c + 1)) nodes⟩, true)
  rw [if_pos (show (cloneNode c p).target = "clone" from rfl), hbody]

theorem remove_fold_char (nodes : List FxNode)
    (hnodup : (nids nodes).Nodup)
    (hph : placeholdersNoArgs nodes = true)
    (hargs : argsClosed nodes = true) :
    ∀ (rs : List Nat) (c : Nat) (b : Bool),
      (∀ r ∈ rs, ∃ np ∈ nodes, np.op = OpKind.placeholder ∧ np.nid = r) →
      rs.Nodup →
      maxNid nodes < c →
      rs.foldl removeStep (⟨repairedWith (buildAssign rs c) nodes⟩, b)
        = (⟨nodes⟩, b || !rs.isEmpty) := by
  intro rs
  induction rs with
  | nil =>
    intro c b _ _ _
    simp [List.foldl_nil, buildAssign, repairedWith_nil]
  | cons p rs ih =>
    intro c b hsub hnd hMc
    obtain ⟨np, hnp, hop, hid⟩ := hsub p (List.mem_cons_self p rs)
    rw [List.foldl_cons,
      removeStep_char nodes rs p c b np hnodup hph hargs hnp hop hid
        ((List.nodup_cons.mp hnd).1) hMc,
      ih (c + 1) true (fun r hr => hsub r (List.mem_cons_of_mem p hr))
        ((List.nodup_cons.mp hnd).2) (by omega)]
    simp

theorem remove_of_repaired (nodes : List FxNode)
    (hnodup : (nids nodes).Nodup)
    (hph : placeholdersNoArgs nodes = true)
    (hargs : argsClosed nodes = true) :
    remove_input_alias_fixing_clones
        ⟨repairedWith (buildAssign (placeholderIds ⟨nodes⟩) (maxNid nodes + 1)) nodes⟩
      = if (placeholderIds ⟨nodes⟩).isEmpty then (⟨nodes⟩ : FxGraph)
        else ⟨eliminate_dead_code nodes⟩ := by
  unfold remove_input_alias_fixing_clones
  have hids : placeholderIds ⟨repairedWith (buildAssign (placeholderIds ⟨nodes⟩)
      (maxNid nodes + 1)) nodes⟩ = placeholderIds ⟨nodes⟩ :=
    placeholderIds_repairedWith nodes _
  rw [hids]
  rw [remove_fold_char nodes hnodup hph hargs (placeholderIds ⟨nodes⟩) (maxNid nodes + 1)
    false (fun r hr => (mem_placeholderIds nodes r).mp hr)
    (placeholderIds_nodup nodes hnodup) (by omega)]
  cases hps : (placeholderIds ⟨nodes⟩).isEmpty
  · simp [clean_up_graph_after_modifications]
  · simp

theorem eliminate_dead_code_id (nodes : List FxNode) (h : liveOk nodes = true) :
    eliminate_dead_code nodes = nodes := by
  induction nodes with
  | nil => rfl
  | cons n ns ih =>
    simp only [liveOk, Bool.and_eq_true] at h
    rw [eliminate_dead_code]
    rw [ih h.2]
    by_cases hcf : (n.op == OpKind.callFunction) = true
    · have hany : (ns.any fun m => m.args.contains n.nid) = true := by
        have h1 := h.1
        rw [hcf] at h1
        simpa using h1
      have hall : (ns.all fun m => !(m.args.contains n.nid)) = false := by
        obtain ⟨m, hm, hc⟩ := List.any_eq_true.mp hany
        rw [Bool.eq_false_iff]
        intro hall
        have := List.all_eq_true.mp hall m hm
        rw [hc] at this
        cases this
      rw [hcf, hall]
      simp
    · have : (n.op == OpKind.callFunction) = false := by
        rw [Bool.eq_false_iff]
        exact hcf
      rw [this]
      simp

theorem repair_char (nodes : List FxNode) (hnodup : (nids nodes).Nodup)
    (hph : placeholdersNoArgs nodes = true) :
    repair_input_aliasing ⟨nodes⟩
      = ⟨repairedWith (buildAssign (placeholderIds ⟨nodes⟩) (maxNid nodes + 1)) nodes⟩ := by
  have h := repair_fold_char nodes hnodup hph (placeholderIds ⟨nodes⟩) []
    (by simp)
    (by rw [show buildAssign [] (maxNid nodes + 1) = [] from rfl, repairedWith_nil]; simp)
  rw [show buildAssign [] (maxNid nodes + 1) = [] from rfl, repairedWith_nil] at h
  rw [show ([] : List Nat) ++ placeholderIds ⟨nodes⟩ = placeholderIds ⟨nodes⟩ from rfl] at h
  exact h

/-- A concrete graph with a dead call-operator node: the placeholder feeds
both an unused relu and the output directly. -/
def gDead : FxGraph := ⟨[⟨0, OpKind.placeholder, "x", []⟩,
  ⟨1, OpKind.callFunction, "relu", [0]⟩, ⟨2, OpKind.output, "output", [0]⟩]⟩

/-- C8 counterexample: on `gDead` (one placeholder, one dead relu node) the
repair/removal round trip is not the identity — the dead-code elimination run
by the removal pass erases the dead relu node. -/
theorem C8_counterexample :
    remove_input_alias_fixing_clones (repair_input_aliasing gDead) ≠ gDead
    ∧ remove_input_alias_fixing_clones (repair_input_aliasing gDead)
      = ⟨[⟨0, OpKind.placeholder, "x", []⟩, ⟨2, OpKind.output, "output", [0]⟩]⟩ := by
  refine ⟨by decide, by decide⟩

/-- C8 amended: for every graph satisfying the data-model invariants (unique
node ids, arguments reference existing nodes, placeholders take no arguments)
in which every call-operator node has a remaining consumer (no dead code),
inserting the aliasing clones and then running the removal pass yields a
graph structurally equal to the original. -/
theorem C8_repair_remove_roundtrip (g : FxGraph)
    (hnodup : (nids g.nodes).Nodup)
    (hargs : argsClosed g.nodes = true)
    (hph : placeholdersNoArgs g.nodes = true)
    (hlive : liveOk g.nodes = true) :
    remove_input_alias_fixing_clones (repair_input_aliasing g) = g := by
  obtain ⟨nodes⟩ := g
  rw [repair_char nodes hnodup hph]
  rw [remove_of_repaired nodes hnodup hph hargs]
  rw [eliminate_dead_code_id nodes hlive]
  rw [ite_self]

/-- A concrete live graph: placeholder, relu consuming it, output. -/
def gLive : FxGraph := ⟨[⟨0, OpKind.placeholder, "x", []⟩,
  ⟨1, OpKind.callFunction, "relu", [0]⟩, ⟨2, OpKind.output, "output", [1]⟩]⟩

theorem C8_repair_remove_roundtrip_witness :
    remove_input_alias_fixing_clones (repair_input_aliasing gLive) = gLive :=
  C8_repair_remove_roundtrip gLive (by decide) (by decide) (by decide) (by decide)
